import Mathlib

/-!
Shallow embedding of the resolution cache, proxy pool, retry orchestrator and
format selectors of `src/api/index.py` (yuzubb/yudlp).

Timestamps, durations and bitrates in the Python source are floats; every use
the claims touch is subtraction and order comparison, so they are modelled as
integers.  The mutable module-level state (`CACHE`, `PROXY_LIST`,
`WORKING_PROXIES`, `FAILED_PROXIES`, `last_proxy_fetch`) is modelled as explicit
state records threaded through the functions.  `random.choice` is modelled as a
uniform index draw: each call receives a seed `k` and picks element `k % length`
of the non-empty candidate list.  The external extractor (`yt-dlp`) is modelled
as an oracle `Nat → Except String RawInfo` giving, for each attempt index, either
the raw payload or the error text of the raised exception.
-/

namespace YuDlp

/-- Python substring containment (`pat in s`) on explicit character lists. -/
def charsHas (pat : List Char) : List Char → Bool
  | [] => pat.isEmpty
  | c :: rest => List.isPrefixOf pat (c :: rest) || charsHas pat rest

/-- Python `pat in s` for strings. -/
def strHas (s pat : String) : Bool := charsHas pat.data s.data

/-- Python truthiness of an optional string (`None` and `""` are falsy). -/
def truthy : Option String → Bool
  | none => false
  | some s => !s.isEmpty

/-- A raw format dictionary as produced by the extractor (`raw_info["formats"]`
entries); only the keys read by the source are modelled. -/
structure RawFormat where
  format_id : Option String
  ext : Option String
  resolution : Option String
  fps : Option ℤ
  acodec : Option String
  vcodec : Option String
  url : Option String
  protocol : Option String
  vbr : Option ℤ
  abr : Option ℤ
deriving DecidableEq

/-- Raw payload returned by `ydl.extract_info`. -/
structure RawInfo where
  title : Option String
  formats : List RawFormat
deriving DecidableEq

/-- A normalized format dictionary, as built in `_fetch_and_cache_info`. -/
structure Format where
  itag : Option String
  ext : Option String
  resolution : Option String
  fps : Option ℤ
  acodec : Option String
  vcodec : Option String
  url : Option String
  protocol : Option String
  vbr : Option ℤ
  abr : Option ℤ
deriving DecidableEq

/-- The per-format projection done by the comprehension in
`_fetch_and_cache_info` (lines 189-200 of `src/api/index.py`). -/
def to_format (f : RawFormat) : Format :=
  { itag := f.format_id
    ext := f.ext
    resolution := f.resolution
    fps := f.fps
    acodec := f.acodec
    vcodec := f.vcodec
    url := f.url
    protocol := f.protocol
    vbr := f.vbr
    abr := f.abr }

/-- The format-normalization comprehension: keep entries with a truthy `url`
and an `ext` different from `"mhtml"`, projecting the listed keys. -/
def normalize_formats (fs : List RawFormat) : List Format :=
  (fs.filter (fun f => truthy f.url && decide (f.ext ≠ some "mhtml"))).map to_format

/-- The response payload (`response_data`): title, id, normalized formats. -/
structure ResolvedInfo where
  title : Option String
  id : String
  formats : List Format
deriving DecidableEq

/-- One `CACHE` value: the `(current_time, response_data, cache_duration)`
triple stored by `_fetch_and_cache_info`. -/
structure CacheEntry where
  timestamp : ℤ
  data : ResolvedInfo
  duration : ℤ
deriving DecidableEq

/-- The `CACHE` dict: key → entry association list in insertion order. -/
abbrev Cache := List (String × CacheEntry)

/-- Python dict lookup `CACHE[vid]` / `vid in CACHE` (first match). -/
def dictFind (c : Cache) (k : String) : Option CacheEntry :=
  (c.find? (fun kv => kv.1 == k)).map Prod.snd

/-- Python dict assignment `CACHE[vid] = e`: replace in place when the key is
present, otherwise append. -/
def dictSet (c : Cache) (k : String) (e : CacheEntry) : Cache :=
  if c.any (fun kv => kv.1 == k) then
    c.map (fun kv => if kv.1 == k then (k, e) else kv)
  else
    c ++ [(k, e)]

/-- Python `del CACHE[k]`. -/
def dictDel (c : Cache) (k : String) : Cache :=
  c.filter (fun kv => !(kv.1 == k))

def DEFAULT_CACHE_DURATION : ℤ := 1800

def LONG_CACHE_DURATION : ℤ := 14400

/-- `cleanup_cache` (lines 152-158): collect the keys of entries with
`now - ts >= dur`, then delete each collected key. -/
def cleanup_cache (c : Cache) (now : ℤ) : Cache :=
  let expired := (c.filter (fun kv => decide (now - kv.2.timestamp ≥ kv.2.duration))).map Prod.fst
  expired.foldl dictDel c

/-- The cache read performed at the top of `_fetch_and_cache_info`
(lines 164-168): return the payload when the entry is live, leaving the
store untouched in every case. -/
def cache_read (c : Cache) (vid : String) (now : ℤ) : Cache × Option ResolvedInfo :=
  match dictFind c vid with
  | some e => if now - e.timestamp < e.duration then (c, some e.data) else (c, none)
  | none => (c, none)

/-- The proxy-pool module state: `PROXY_LIST`, `WORKING_PROXIES`,
`FAILED_PROXIES`, `last_proxy_fetch`. -/
structure ProxyState where
  proxyList : List String
  workingProxies : List String
  failedProxies : List String
  lastProxyFetch : ℤ
deriving DecidableEq

def PROXY_FETCH_INTERVAL : ℤ := 3600

/-- `FAILED_PROXIES.add(p)` (Python set add: idempotent). -/
def markFailed (st : ProxyState) (p : String) : ProxyState :=
  { st with failedProxies := st.failedProxies.insert p }

/-- `update_proxy_list` (lines 83-107): a no-op when the last fetch is recent
and the candidate list is non-empty; otherwise, when the external fetch
returned a non-empty deduplicated list, replace the candidate list, re-probe
its first ten entries (`test` models `test_proxy`) into the working list and
record the fetch time.  `FAILED_PROXIES` is never touched. -/
def update_proxy_list (st : ProxyState) (now : ℤ) (fetched : List String)
    (test : String → Bool) : ProxyState :=
  if now - st.lastProxyFetch < PROXY_FETCH_INTERVAL ∧ st.proxyList ≠ [] then st
  else if fetched ≠ [] then
    { st with
      proxyList := fetched
      workingProxies := (fetched.take 10).filter test
      lastProxyFetch := now }
  else st

/-- `random.choice` modelled as a uniform index draw with seed `k`. -/
def choiceIdx (l : List String) (k : Nat) : Option String := l[k % l.length]?

/-- The `available` list of the first block of `get_random_proxy`:
`[p for p in WORKING_PROXIES if p not in FAILED_PROXIES]`. -/
def availWorking (st : ProxyState) : List String :=
  st.workingProxies.filter (fun p => decide (p ∉ st.failedProxies))

/-- The `available` list of the second block of `get_random_proxy`:
`[p for p in PROXY_LIST if p not in FAILED_PROXIES]`. -/
def availCandidates (st : ProxyState) : List String :=
  st.proxyList.filter (fun p => decide (p ∉ st.failedProxies))

/-- `get_random_proxy` (lines 109-123): two early-return blocks, each guarded
by non-emptiness of the base list and then of its non-failed sublist; prefer a
uniformly random element of the working list minus the failed set; fall back
to the candidate list minus the failed set; otherwise `None`. -/
def get_random_proxy (st : ProxyState) (k : Nat) : Option String :=
  if st.workingProxies ≠ [] ∧ availWorking st ≠ [] then
    choiceIdx (availWorking st) k
  else if st.proxyList ≠ [] ∧ availCandidates st ≠ [] then
    choiceIdx (availCandidates st) k
  else none

/-- The fields of the options dict built by `get_ydl_opts` that matter to the
orchestrator. -/
structure YdlOpts where
  socket_timeout : Nat
  retries : Nat
  proxy : Option String
deriving DecidableEq

/-- `get_ydl_opts` (lines 125-146): fixed extractor options plus, when
`use_proxy` holds and a proxy is available, the selected proxy. -/
def get_ydl_opts (st : ProxyState) (k : Nat) (use_proxy : Bool) : YdlOpts :=
  { socket_timeout := 10
    retries := 3
    proxy := if use_proxy then get_random_proxy st k else none }

/-- An `HTTPException(status_code, detail)`. -/
structure HTTPError where
  status : Nat
  detail : String
deriving DecidableEq

/-- The possible outcomes of `_fetch_and_cache_info`: a returned payload, a
raised `HTTPException`, or the implicit `None` return when the retry loop body
never runs (`max_retries = 0`). -/
inductive FetchOutcome where
  | ok (data : ResolvedInfo)
  | httpError (e : HTTPError)
  | fellThrough
deriving DecidableEq

/-- Combined mutable module state: the cache and the proxy pool. -/
structure SysState where
  cache : Cache
  pool : ProxyState
deriving DecidableEq

/-- The error-text classification on the failure path (line 224):
`"proxy" in error_msg.lower() or "tunnel" in error_msg.lower()`. -/
def proxyRelated (e : String) : Bool :=
  strHas e.toLower "proxy" || strHas e.toLower "tunnel"

/-- The quarantine step on the failure path (lines 223-226): when a proxy was
in use and the error text is proxy-related, add it to `FAILED_PROXIES`. -/
def quarantine_on_error (pool : ProxyState) (current_proxy : Option String)
    (e : String) : ProxyState :=
  match current_proxy with
  | some p => if proxyRelated e then markFailed pool p else pool
  | none => pool

/-- The retry loop of `_fetch_and_cache_info` (lines 176-237), recursing on the
number of remaining attempts; the current attempt index is
`max_retries - remaining`.  On success the normalized payload is cached under
the clock value `t` captured at the start of the call, with the long duration
exactly when at least 12 formats survived normalization.  On failure the
selected proxy is quarantined when the error text is proxy-related; the loop
then retries when attempts remain, and otherwise raises the 500
`Failed after … attempts` error carrying the last error text. -/
def attempt_loop (vid : String) (t : ℤ) (max_retries : Nat)
    (oracle : Nat → Except String RawInfo) (ks : Nat → Nat) :
    Nat → SysState → SysState × FetchOutcome
  | 0, st => (st, .fellThrough)
  | remaining + 1, st =>
    let attempt := max_retries - (remaining + 1)
    let use_proxy := decide (st.pool.proxyList ≠ [])
    let opts := get_ydl_opts st.pool (ks attempt) use_proxy
    match oracle attempt with
    | .ok raw =>
      let formats := normalize_formats raw.formats
      let response_data : ResolvedInfo := ⟨raw.title, vid, formats⟩
      let cache_duration :=
        if formats.length ≥ 12 then LONG_CACHE_DURATION else DEFAULT_CACHE_DURATION
      ({ st with cache := dictSet st.cache vid ⟨t, response_data, cache_duration⟩ },
       .ok response_data)
    | .error e =>
      let pool' := quarantine_on_error st.pool opts.proxy e
      match remaining with
      | 0 =>
        ({ st with pool := pool' },
         .httpError ⟨500, "Failed after " ++ toString max_retries ++ " attempts: " ++ e⟩)
      | r + 1 => attempt_loop vid t max_retries oracle ks (r + 1) { st with pool := pool' }

/-- `_fetch_and_cache_info` (lines 160-237): capture the clock `t`, sweep the
cache, serve a live cached entry, otherwise refresh the proxy pool and run the
retry loop. -/
def fetch_and_cache_info (vid : String) (max_retries : Nat) (t : ℤ)
    (fetched : List String) (test : String → Bool)
    (oracle : Nat → Except String RawInfo) (ks : Nat → Nat)
    (st : SysState) : SysState × FetchOutcome :=
  let st1 : SysState := ⟨cleanup_cache st.cache t, st.pool⟩
  match (cache_read st1.cache vid t).2 with
  | some d => (st1, .ok d)
  | none =>
    let st2 : SysState := ⟨st1.cache, update_proxy_list st1.pool t fetched test⟩
    attempt_loop vid t max_retries oracle ks max_retries st2

/-- Membership test of the `/m3u8/{id}` filter (lines 250-257): truthy url and
(".m3u8" in the url, or ext `"m3u8"`, or protocol `m3u8_native` /
`http_dash_segments`). -/
def is_m3u8_stream (f : Format) : Bool :=
  truthy f.url &&
    (strHas (f.url.getD "") ".m3u8" || f.ext == some "m3u8" ||
      f.protocol == some "m3u8_native" || f.protocol == some "http_dash_segments")

/-- The `/m3u8/{id}` response body. -/
structure M3u8Response where
  title : Option String
  id : String
  m3u8_formats : List Format
deriving DecidableEq

/-- The `/m3u8/{id}` view over an already-resolved payload (lines 250-266):
filter to manifest-like formats, raising 404 when none remain. -/
def get_m3u8_streams (info : ResolvedInfo) : Except HTTPError M3u8Response :=
  let m3u8_formats := info.formats.filter is_m3u8_stream
  if m3u8_formats.isEmpty then .error ⟨404, "No m3u8 streams found"⟩
  else .ok ⟨info.title, info.id, m3u8_formats⟩

/-- The sort key `x.get("vbr") or 0` (`None` and `0` both map to `0`). -/
def vbrKey (f : Format) : ℤ := (f.vbr).getD 0

/-- The sort key `x.get("abr") or 0`. -/
def abrKey (f : Format) : ℤ := (f.abr).getD 0

/-- Eligibility test of `best_video`: `vcodec not in ["none", None]` and
`acodec in ["none", None]`. -/
def is_video_only (f : Format) : Bool :=
  !(f.vcodec == some "none" || f.vcodec == none) &&
    (f.acodec == some "none" || f.acodec == none)

/-- Eligibility test of `best_audio`: `acodec not in ["none", None]` and
`vcodec in ["none", None]`. -/
def is_audio_only (f : Format) : Bool :=
  !(f.acodec == some "none" || f.acodec == none) &&
    (f.vcodec == some "none" || f.vcodec == none)

/-- Python `sorted(formats, key=…, reverse=True)`: a stable descending sort,
modelled by `mergeSort` with the reversed comparison (ties keep list order). -/
def sorted_desc {α : Type} (key : α → ℤ) (l : List α) : List α :=
  l.mergeSort (fun a b => decide (key b ≤ key a))

/-- `best_video` in `/high/{id}` (lines 277-281): first video-only entry of the
stable descending-vbr ordering of the formats. -/
def best_video (fs : List Format) : Option Format :=
  (sorted_desc vbrKey fs).find? is_video_only

/-- `best_audio` in `/high/{id}` (lines 283-287): first audio-only entry of the
stable descending-abr ordering of the formats. -/
def best_audio (fs : List Format) : Option Format :=
  (sorted_desc abrKey fs).find? is_audio_only

/-- The `/high/{id}` response body. -/
structure HighResponse where
  title : Option String
  id : String
  best_video : Option Format
  best_audio : Option Format
  note : String
deriving DecidableEq

/-- The `/high/{id}` view over an already-resolved payload (lines 268-298):
404 when neither a best video nor a best audio exists. -/
def get_high_quality_stream (info : ResolvedInfo) : Except HTTPError HighResponse :=
  let bv := best_video info.formats
  let ba := best_audio info.formats
  if bv.isNone && ba.isNone then .error ⟨404, "No suitable streams found"⟩
  else .ok ⟨info.title, info.id, bv, ba, "Combine streams using FFmpeg for best quality"⟩

/-- Spec-side selector, following the specification's words: among the
eligible entries of the original list (in order), the first one whose key is
at least every eligible entry's key — i.e. the maximum-bitrate eligible
format, ties broken by original list order. -/
def firstMaxBy {α : Type} (key : α → ℤ) (p : α → Bool) (l : List α) : Option α :=
  (l.filter p).find? (fun f => (l.filter p).all (fun g => decide (key g ≤ key f)))

/-- Spec-side `bestVideo`: highest-vbr video-only format, earliest on ties. -/
def bestVideoSpec (fs : List Format) : Option Format :=
  firstMaxBy vbrKey is_video_only fs

/-- Spec-side `bestAudio`: highest-abr audio-only format, earliest on ties. -/
def bestAudioSpec (fs : List Format) : Option Format :=
  firstMaxBy abrKey is_audio_only fs

/-- Spec-side manifest-format predicate, following the specification's words:
the URL contains the streaming-manifest marker, or the container extension is
the manifest extension, or the transport protocol is one of the recognized
adaptive-streaming protocols. -/
def is_manifest_stream_spec (f : Format) : Bool :=
  strHas (f.url.getD "") ".m3u8" || f.ext == some "m3u8" ||
    f.protocol == some "m3u8_native" || f.protocol == some "http_dash_segments"

/-- Ghost wall clock at the moment of the successful cache insert, for a run
whose first success is attempt `j`: the call starts at `t`; each failed attempt
`i < j` takes `dt i` seconds of extraction work followed by the fixed
`asyncio.sleep(1)` backoff, and the successful attempt itself takes `dt j`. -/
def wall_at_insertion (t : ℤ) (dt : Nat → ℤ) (j : Nat) : ℤ :=
  t + Finset.sum (Finset.range j) (fun i => dt i + 1) + dt j

/-- The operations that mutate the proxy pool over the process lifetime:
explicit quarantine and a source-list refresh. -/
inductive PoolOp where
  | mark (a : String)
  | refresh (now : ℤ) (fetched : List String) (test : String → Bool)

def applyOp (st : ProxyState) : PoolOp → ProxyState
  | .mark a => markFailed st a
  | .refresh now fetched test => update_proxy_list st now fetched test

def applyOps (ops : List PoolOp) (st : ProxyState) : ProxyState :=
  ops.foldl applyOp st

/-! ### Helper lemmas about the cache store -/

theorem foldl_dictDel_eq_filter (ks : List String) :
    ∀ c : Cache, ks.foldl dictDel c = c.filter (fun kv => decide (kv.1 ∉ ks)) := by
  induction ks with
  | nil => intro c; simp
  | cons k ks ih =>
    intro c
    have h1 : (k :: ks).foldl dictDel c = ks.foldl dictDel (dictDel c k) := rfl
    rw [h1, ih, dictDel, List.filter_filter]
    apply List.filter_congr
    intro kv _
    by_cases h : kv.1 = k
    · simp [h]
    · simp [h, List.mem_cons]

/-- The key list collected by `cleanup_cache`: keys of entries with age ≥ ttl. -/
def expiredKeys (c : Cache) (now : ℤ) : List String :=
  (c.filter (fun kv => decide (now - kv.2.timestamp ≥ kv.2.duration))).map Prod.fst

theorem cleanup_cache_eq_foldl (c : Cache) (now : ℤ) :
    cleanup_cache c now = (expiredKeys c now).foldl dictDel c := rfl

/-- C7: for any mixture of expired and live entries (with the dict's key
uniqueness), the sweep removes exactly the entries whose age is at least their
ttl and leaves every other entry untouched, in order. -/
theorem cleanup_cache_removes_exactly (c : Cache) (now : ℤ)
    (hnd : (c.map Prod.fst).Nodup) :
    cleanup_cache c now =
      c.filter (fun kv => decide (now - kv.2.timestamp < kv.2.duration)) := by
  rw [cleanup_cache_eq_foldl, foldl_dictDel_eq_filter]
  apply List.filter_congr
  intro kv hkv
  by_cases hexp : kv.2.duration ≤ now - kv.2.timestamp
  · have hmem : kv.1 ∈ expiredKeys c now :=
      List.mem_map_of_mem _ (List.mem_filter.mpr ⟨hkv, by simpa using hexp⟩)
    simp [hmem, not_lt.mpr hexp]
  · have hlt : now - kv.2.timestamp < kv.2.duration := lt_of_not_ge hexp
    have hnot : kv.1 ∉ expiredKeys c now := by
      intro hmem
      obtain ⟨kv', hkv'⟩ := List.mem_map.mp hmem
      have hkv'c := (List.mem_filter.mp hkv'.1).1
      have hkv'exp := (List.mem_filter.mp hkv'.1).2
      have heq : kv' = kv := List.inj_on_of_nodup_map hnd hkv'c hkv hkv'.2
      subst heq
      simp at hkv'exp
      exact hexp hkv'exp
    simp [hnot, hlt]

theorem cleanup_cache_removes_exactly_witness :
    cleanup_cache
        [("a", ⟨0, ⟨none, "a", []⟩, 10⟩), ("b", ⟨5, ⟨none, "b", []⟩, 10⟩)] 12 =
      [("b", ⟨5, ⟨none, "b", []⟩, 10⟩)] :=
  (cleanup_cache_removes_exactly
      [("a", ⟨0, ⟨none, "a", []⟩, 10⟩), ("b", ⟨5, ⟨none, "b", []⟩, 10⟩)] 12
      (by decide)).trans (by decide)

/-- C6: the cache read returns the stored payload exactly when
`now - insertedAt < ttl`, returns the identical payload for any two reads
within the ttl window, returns nothing once `now - insertedAt ≥ ttl`, and
never mutates the store (in particular a miss does not remove the expired
entry). -/
theorem cache_read_spec (c : Cache) (vid : String) :
    (∀ e, dictFind c vid = some e → ∀ now : ℤ, now - e.timestamp < e.duration →
      cache_read c vid now = (c, some e.data)) ∧
    (∀ e, dictFind c vid = some e → ∀ now : ℤ, e.duration ≤ now - e.timestamp →
      cache_read c vid now = (c, none)) ∧
    (dictFind c vid = none → ∀ now : ℤ, cache_read c vid now = (c, none)) ∧
    (∀ now : ℤ, (cache_read c vid now).1 = c) ∧
    (∀ e, dictFind c vid = some e → ∀ t₁ t₂ : ℤ,
      t₁ - e.timestamp < e.duration → t₂ - e.timestamp < e.duration →
      (cache_read c vid t₁).2 = some e.data ∧
      (cache_read c vid t₁).2 = (cache_read c vid t₂).2) := by
  refine ⟨?_, ?_, ?_, ?_, ?_⟩
  · intro e he now hlt
    simp [cache_read, he, hlt]
  · intro e he now hge
    simp [cache_read, he, not_lt.mpr hge]
  · intro he now
    simp [cache_read, he]
  · intro now
    unfold cache_read
    rcases h : dictFind c vid with _ | e
    · rfl
    · by_cases hlt : now - e.timestamp < e.duration <;> simp [hlt]
  · intro e he t₁ t₂ h₁ h₂
    simp [cache_read, he, h₁, h₂]

theorem cache_read_spec_witness :
    cache_read [("v", ⟨100, ⟨none, "v", []⟩, 1800⟩)] "v" 200 =
      ([("v", ⟨100, ⟨none, "v", []⟩, 1800⟩)], some ⟨none, "v", []⟩) :=
  (cache_read_spec [("v", ⟨100, ⟨none, "v", []⟩, 1800⟩)] "v").1
    ⟨100, ⟨none, "v", []⟩, 1800⟩ (by decide) 200 (by decide)

/-! ### Helper lemmas about proxy selection -/

theorem choiceIdx_of_ne_nil {l : List String} (h : l ≠ []) (k : Nat) :
    ∃ p, choiceIdx l k = some p ∧ p ∈ l := by
  have hlen : 0 < l.length := List.length_pos.mpr h
  have hk := Nat.mod_lt k hlen
  refine ⟨l[k % l.length], ?_, List.getElem_mem _⟩
  simp [choiceIdx, List.getElem?_eq_getElem hk]

theorem choiceIdx_mem {l : List String} {k : Nat} {p : String}
    (h : choiceIdx l k = some p) : p ∈ l := List.getElem?_mem h

/-- Non-emptiness of the filtered `available` list forces non-emptiness of its
base list, so the double guards of `get_random_proxy` collapse. -/
theorem working_ne_nil_of_avail {st : ProxyState} (h : availWorking st ≠ []) :
    st.workingProxies ≠ [] := by
  intro hnil
  apply h
  simp [availWorking, hnil]

theorem candidates_ne_nil_of_avail {st : ProxyState} (h : availCandidates st ≠ []) :
    st.proxyList ≠ [] := by
  intro hnil
  apply h
  simp [availCandidates, hnil]

/-- Unfolding of `get_random_proxy` as a two-stage preference chain. -/
theorem get_random_proxy_eq (st : ProxyState) (k : Nat) :
    get_random_proxy st k =
      if availWorking st ≠ [] then choiceIdx (availWorking st) k
      else if availCandidates st ≠ [] then choiceIdx (availCandidates st) k
      else none := by
  unfold get_random_proxy
  by_cases hW : availWorking st = []
  · have hw1 : ¬(st.workingProxies ≠ [] ∧ availWorking st ≠ []) := by simp [hW]
    have hw2 : ¬(availWorking st ≠ []) := by simp [hW]
    rw [if_neg hw1, if_neg hw2]
    by_cases hC : availCandidates st = []
    · have hc1 : ¬(st.proxyList ≠ [] ∧ availCandidates st ≠ []) := by simp [hC]
      have hc2 : ¬(availCandidates st ≠ []) := by simp [hC]
      rw [if_neg hc1, if_neg hc2]
    · rw [if_pos ⟨candidates_ne_nil_of_avail hC, hC⟩, if_pos hC]
  · rw [if_pos ⟨working_ne_nil_of_avail hW, hW⟩, if_pos hW]

/-- A selected proxy is never in the failed set. -/
theorem select_avoids_failed (st : ProxyState) (k : Nat) (a : String)
    (h : get_random_proxy st k = some a) : a ∉ st.failedProxies := by
  rw [get_random_proxy_eq] at h
  by_cases hW : availWorking st = []
  · by_cases hC : availCandidates st = []
    · simp [hW, hC] at h
    · rw [if_neg (by simp [hW]), if_pos hC] at h
      have hmem := choiceIdx_mem h
      simpa [availCandidates] using (List.mem_filter.mp hmem).2
  · rw [if_pos hW] at h
    have hmem := choiceIdx_mem h
    simpa [availWorking] using (List.mem_filter.mp hmem).2

/-- C4: `select` picks the uniformly drawn element of `working ∖ failed` when
that set is non-empty, else of `candidate ∖ failed`, else returns none; it
never returns a failed address. -/
theorem select_preference_spec (st : ProxyState) (k : Nat) :
    (availWorking st ≠ [] →
      get_random_proxy st k = (availWorking st)[k % (availWorking st).length]?) ∧
    (availWorking st = [] → availCandidates st ≠ [] →
      get_random_proxy st k = (availCandidates st)[k % (availCandidates st).length]?) ∧
    (availWorking st = [] → availCandidates st = [] →
      get_random_proxy st k = none) ∧
    (∀ a, get_random_proxy st k = some a → a ∉ st.failedProxies) := by
  refine ⟨?_, ?_, ?_, fun a => select_avoids_failed st k a⟩
  · intro hW
    rw [get_random_proxy_eq, if_pos hW]; rfl
  · intro hW hC
    rw [get_random_proxy_eq, if_neg (by simp [hW]), if_pos hC]; rfl
  · intro hW hC
    rw [get_random_proxy_eq, if_neg (by simp [hW]), if_neg (by simp [hC])]

theorem select_preference_spec_witness :
    get_random_proxy ⟨["c1", "c2"], ["w1", "w2"], ["w1"], 0⟩ 3 = some "w2" :=
  ((select_preference_spec ⟨["c1", "c2"], ["w1", "w2"], ["w1"], 0⟩ 3).1
    (by decide)).trans (by decide)

/-! ### Step-unfolding lemmas for the retry loop -/

theorem attempt_loop_zero (vid : String) (t : ℤ) (n : Nat)
    (oracle : Nat → Except String RawInfo) (ks : Nat → Nat) (st : SysState) :
    attempt_loop vid t n oracle ks 0 st = (st, .fellThrough) := rfl

theorem attempt_loop_succ_ok (vid : String) (t : ℤ) (n : Nat)
    (oracle : Nat → Except String RawInfo) (ks : Nat → Nat) (r : Nat)
    (st : SysState) (raw : RawInfo) (h : oracle (n - (r + 1)) = .ok raw) :
    attempt_loop vid t n oracle ks (r + 1) st =
      ({ st with cache := (dictSet st.cache vid
          ⟨t, ⟨raw.title, vid, normalize_formats raw.formats⟩,
            if (normalize_formats raw.formats).length ≥ 12 then LONG_CACHE_DURATION
            else DEFAULT_CACHE_DURATION⟩) },
       .ok ⟨raw.title, vid, normalize_formats raw.formats⟩) := by
  rw [attempt_loop, h]

theorem attempt_loop_succ_error_last (vid : String) (t : ℤ) (n : Nat)
    (oracle : Nat → Except String RawInfo) (ks : Nat → Nat)
    (st : SysState) (e : String) (h : oracle (n - 1) = .error e) :
    attempt_loop vid t n oracle ks 1 st =
      ({ st with pool := (quarantine_on_error st.pool
          (get_ydl_opts st.pool (ks (n - 1)) (decide (st.pool.proxyList ≠ []))).proxy e) },
       .httpError ⟨500, "Failed after " ++ toString n ++ " attempts: " ++ e⟩) := by
  rw [attempt_loop, h]

theorem attempt_loop_succ_error_retry (vid : String) (t : ℤ) (n : Nat)
    (oracle : Nat → Except String RawInfo) (ks : Nat → Nat) (r : Nat)
    (st : SysState) (e : String) (h : oracle (n - (r + 2)) = .error e) :
    attempt_loop vid t n oracle ks (r + 2) st =
      attempt_loop vid t n oracle ks (r + 1)
        { st with pool := (quarantine_on_error st.pool
            (get_ydl_opts st.pool (ks (n - (r + 2))) (decide (st.pool.proxyList ≠ []))).proxy e) } := by
  rw [attempt_loop, h]

/-! ### Quarantine permanence -/

theorem failed_subset_markFailed (pool : ProxyState) (p : String) :
    pool.failedProxies ⊆ (markFailed pool p).failedProxies := by
  intro x hx
  simp [markFailed, List.mem_insert_iff, hx]

theorem mem_failed_markFailed (pool : ProxyState) (p : String) :
    p ∈ (markFailed pool p).failedProxies := by
  simp [markFailed]

theorem update_proxy_list_failed (st : ProxyState) (now : ℤ)
    (fetched : List String) (test : String → Bool) :
    (update_proxy_list st now fetched test).failedProxies = st.failedProxies := by
  unfold update_proxy_list
  split_ifs <;> rfl

theorem quarantine_failed_subset (pool : ProxyState) (cp : Option String) (e : String) :
    pool.failedProxies ⊆ (quarantine_on_error pool cp e).failedProxies := by
  cases cp with
  | none => exact fun x hx => hx
  | some p =>
    by_cases hrel : proxyRelated e = true
    · simp only [quarantine_on_error, hrel, if_true]
      exact failed_subset_markFailed pool p
    · simp only [quarantine_on_error, hrel, if_false]
      exact fun x hx => hx

theorem applyOp_failed_subset (st : ProxyState) (op : PoolOp) :
    st.failedProxies ⊆ (applyOp st op).failedProxies := by
  cases op with
  | mark a => exact failed_subset_markFailed st a
  | refresh now fetched test =>
    rw [applyOp, update_proxy_list_failed]
    exact fun x hx => hx

theorem applyOps_failed_subset (ops : List PoolOp) :
    ∀ st : ProxyState, st.failedProxies ⊆ (applyOps ops st).failedProxies := by
  induction ops with
  | nil => exact fun st x hx => hx
  | cons op ops ih =>
    intro st
    have h1 := applyOp_failed_subset st op
    have h2 := ih (applyOp st op)
    exact fun x hx => h2 (h1 hx)

theorem attempt_loop_failed_mono (vid : String) (t : ℤ) (n : Nat)
    (oracle : Nat → Except String RawInfo) (ks : Nat → Nat) :
    ∀ (fuel : Nat) (st : SysState),
      st.pool.failedProxies ⊆
        ((attempt_loop vid t n oracle ks fuel st).1).pool.failedProxies := by
  intro fuel
  induction fuel with
  | zero =>
    intro st
    rw [attempt_loop_zero]
    exact fun x hx => hx
  | succ r ih =>
    intro st
    cases horacle : oracle (n - (r + 1)) with
    | ok raw =>
      rw [attempt_loop_succ_ok vid t n oracle ks r st raw horacle]
      exact fun x hx => hx
    | error e =>
      cases r with
      | zero =>
        rw [attempt_loop_succ_error_last vid t n oracle ks st e horacle]
        exact quarantine_failed_subset st.pool _ e
      | succ r' =>
        rw [attempt_loop_succ_error_retry vid t n oracle ks r' st e horacle]
        have h1 := quarantine_failed_subset st.pool
          (get_ydl_opts st.pool (ks (n - (r' + 2))) (decide (st.pool.proxyList ≠ []))).proxy e
        have h2 := ih { st with pool := (quarantine_on_error st.pool
          (get_ydl_opts st.pool (ks (n - (r' + 2))) (decide (st.pool.proxyList ≠ []))).proxy e) }
        exact fun x hx => h2 (h1 hx)

/-- C5: once an address is quarantined by `markFailed` — in the orchestrator
this happens when an attempt errors with proxy/tunnel text while a proxy was in
use — it stays in the failed set through any later sequence of quarantines and
pool refreshes, `select` never returns it again, and the retry loop itself only
ever grows the failed set. -/
theorem quarantine_permanent (st : ProxyState) (a : String) (ops : List PoolOp) (k : Nat) :
    a ∈ (applyOps ops (markFailed st a)).failedProxies ∧
    get_random_proxy (applyOps ops (markFailed st a)) k ≠ some a ∧
    (∀ (vid : String) (t : ℤ) (n : Nat) (oracle : Nat → Except String RawInfo)
      (ks : Nat → Nat) (fuel : Nat) (sys : SysState),
      sys.pool.failedProxies ⊆
        ((attempt_loop vid t n oracle ks fuel sys).1).pool.failedProxies) := by
  have hmem : a ∈ (applyOps ops (markFailed st a)).failedProxies :=
    applyOps_failed_subset ops (markFailed st a) (mem_failed_markFailed st a)
  refine ⟨hmem, ?_, fun vid t n oracle ks fuel sys => attempt_loop_failed_mono vid t n oracle ks fuel sys⟩
  intro hsel
  exact select_avoids_failed _ k a hsel hmem

theorem quarantine_permanent_witness :
    get_random_proxy (applyOps [PoolOp.refresh 9999 ["p1", "p2"] (fun _ => true)]
        (markFailed ⟨["p1"], [], [], 0⟩ "p1")) 0 ≠ some "p1" :=
  (quarantine_permanent ⟨["p1"], [], [], 0⟩ "p1"
      [PoolOp.refresh 9999 ["p1", "p2"] (fun _ => true)] 0).2.1

/-! ### Orchestrator run lemmas -/

/-- On a cache miss the orchestrator runs the retry loop on the swept cache and
the refreshed pool. -/
theorem fetch_miss (vid : String) (n : Nat) (t : ℤ) (fetched : List String)
    (test : String → Bool) (oracle : Nat → Except String RawInfo) (ks : Nat → Nat)
    (st : SysState)
    (hmiss : (cache_read (cleanup_cache st.cache t) vid t).2 = none) :
    fetch_and_cache_info vid n t fetched test oracle ks st =
      attempt_loop vid t n oracle ks n
        ⟨cleanup_cache st.cache t, update_proxy_list st.pool t fetched test⟩ := by
  have h : fetch_and_cache_info vid n t fetched test oracle ks st =
      (match (cache_read (cleanup_cache st.cache t) vid t).2 with
        | some d => (⟨cleanup_cache st.cache t, st.pool⟩, FetchOutcome.ok d)
        | none => attempt_loop vid t n oracle ks n
            ⟨cleanup_cache st.cache t, update_proxy_list st.pool t fetched test⟩) := rfl
  rw [h, hmiss]

/-- A run in which every attempt fails ends in the 500 exhaustion error that
carries the text of the last attempt's error. -/
theorem attempt_loop_all_fail (vid : String) (t : ℤ) (n : Nat)
    (oracle : Nat → Except String RawInfo) (ks : Nat → Nat) (errs : Nat → String)
    (hf : ∀ i, i < n → oracle i = .error (errs i)) :
    ∀ (remaining : Nat) (st : SysState), 1 ≤ remaining → remaining ≤ n →
      (attempt_loop vid t n oracle ks remaining st).2 =
        .httpError ⟨500, "Failed after " ++ toString n ++ " attempts: " ++ errs (n - 1)⟩ := by
  intro remaining
  induction remaining with
  | zero => intro st h1 _; exact absurd h1 (by omega)
  | succ r ih =>
    intro st _ hle
    cases r with
    | zero =>
      have h := hf (n - 1) (by omega)
      rw [attempt_loop_succ_error_last vid t n oracle ks st (errs (n - 1)) h]
    | succ r' =>
      have h := hf (n - (r' + 2)) (by omega)
      rw [attempt_loop_succ_error_retry vid t n oracle ks r' st (errs (n - (r' + 2))) h]
      exact ih _ (by omega) (by omega)

/-- The run only ever consults the oracle at attempt indices below
`max_retries`: two oracles that agree there produce identical runs. -/
theorem attempt_loop_oracle_agree (vid : String) (t : ℤ) (n : Nat) (ks : Nat → Nat)
    (o₁ o₂ : Nat → Except String RawInfo) (h : ∀ i, i < n → o₁ i = o₂ i) :
    ∀ remaining : Nat, remaining ≤ n → ∀ st : SysState,
      attempt_loop vid t n o₁ ks remaining st = attempt_loop vid t n o₂ ks remaining st := by
  intro remaining
  induction remaining with
  | zero => intro _ st; rw [attempt_loop_zero, attempt_loop_zero]
  | succ r ih =>
    intro hle st
    have heq := h (n - (r + 1)) (by omega)
    cases horacle : o₁ (n - (r + 1)) with
    | ok raw =>
      rw [attempt_loop_succ_ok vid t n o₁ ks r st raw horacle,
          attempt_loop_succ_ok vid t n o₂ ks r st raw (heq.symm.trans horacle)]
    | error e =>
      cases r with
      | zero =>
        rw [attempt_loop_succ_error_last vid t n o₁ ks st e horacle,
            attempt_loop_succ_error_last vid t n o₂ ks st e (heq.symm.trans horacle)]
      | succ r' =>
        rw [attempt_loop_succ_error_retry vid t n o₁ ks r' st e horacle,
            attempt_loop_succ_error_retry vid t n o₂ ks r' st e (heq.symm.trans horacle)]
        exact ih (by omega) _

/-- A run whose first success is attempt `j` returns the normalized payload
and writes exactly one cache entry for it, timestamped with the start clock
`t` and with the format-count-dependent duration; earlier failures only touch
the proxy pool. -/
theorem attempt_loop_success (vid : String) (t : ℤ) (n : Nat)
    (oracle : Nat → Except String RawInfo) (ks : Nat → Nat) (raw : RawInfo)
    (errs : Nat → String) (j : Nat) (hj : j < n)
    (hpre : ∀ i, i < j → oracle i = .error (errs i)) (hok : oracle j = .ok raw) :
    ∀ (remaining : Nat) (st : SysState), remaining ≤ n → n - remaining ≤ j →
      ∃ poolF : ProxyState,
        attempt_loop vid t n oracle ks remaining st =
          (⟨dictSet st.cache vid
              ⟨t, ⟨raw.title, vid, normalize_formats raw.formats⟩,
                if (normalize_formats raw.formats).length ≥ 12 then LONG_CACHE_DURATION
                else DEFAULT_CACHE_DURATION⟩, poolF⟩,
           .ok ⟨raw.title, vid, normalize_formats raw.formats⟩) := by
  intro remaining
  induction remaining with
  | zero => intro st _ hstart; exact absurd hstart (by omega)
  | succ r ih =>
    intro st hle hstart
    by_cases hjeq : n - (r + 1) = j
    · refine ⟨st.pool, ?_⟩
      rw [attempt_loop_succ_ok vid t n oracle ks r st raw (by rw [hjeq]; exact hok)]
    · have hlt : n - (r + 1) < j := by omega
      have herr := hpre (n - (r + 1)) hlt
      cases r with
      | zero => exact absurd hlt (by omega)
      | succ r' =>
        rw [attempt_loop_succ_error_retry vid t n oracle ks r' st _ herr]
        obtain ⟨poolF, hres⟩ := ih
          { st with pool := (quarantine_on_error st.pool
              (get_ydl_opts st.pool (ks (n - (r' + 2))) (decide (st.pool.proxyList ≠ []))).proxy
              (errs (n - (r' + 2)))) }
          (by omega) (by omega)
        exact ⟨poolF, hres⟩

/-- C2: on a cache miss, when every attempt fails, `resolve` raises the 500
`Failed after max_retries attempts` error carrying the last attempt's error
text (never a bare crash), and the whole run consults the extractor on at most
`max_retries` attempt indices — an attempt with no proxy available is an
ordinary loop iteration and still counts. -/
theorem resolve_exhausted_spec (vid : String) (n : Nat) (t : ℤ)
    (fetched : List String) (test : String → Bool)
    (oracle : Nat → Except String RawInfo) (ks : Nat → Nat)
    (st : SysState) (errs : Nat → String)
    (hn : 1 ≤ n)
    (hmiss : (cache_read (cleanup_cache st.cache t) vid t).2 = none)
    (hf : ∀ i, i < n → oracle i = .error (errs i)) :
    (fetch_and_cache_info vid n t fetched test oracle ks st).2 =
      .httpError ⟨500, "Failed after " ++ toString n ++ " attempts: " ++ errs (n - 1)⟩ ∧
    ∀ o₂ : Nat → Except String RawInfo, (∀ i, i < n → oracle i = o₂ i) →
      fetch_and_cache_info vid n t fetched test oracle ks st =
        fetch_and_cache_info vid n t fetched test o₂ ks st := by
  constructor
  · rw [fetch_miss vid n t fetched test oracle ks st hmiss]
    exact attempt_loop_all_fail vid t n oracle ks errs hf n _ hn le_rfl
  · intro o₂ hagree
    rw [fetch_miss vid n t fetched test oracle ks st hmiss,
        fetch_miss vid n t fetched test o₂ ks st hmiss]
    exact attempt_loop_oracle_agree vid t n ks oracle o₂ hagree n le_rfl _

theorem resolve_exhausted_spec_witness :
    (fetch_and_cache_info "v" 2 0 [] (fun _ => true)
        (fun i => .error ("e" ++ toString i)) (fun _ => 0)
        ⟨[], ⟨[], [], [], 0⟩⟩).2 =
      .httpError ⟨500, "Failed after 2 attempts: e1"⟩ :=
  ((resolve_exhausted_spec "v" 2 0 [] (fun _ => true)
      (fun i => .error ("e" ++ toString i)) (fun _ => 0)
      ⟨[], ⟨[], [], [], 0⟩⟩ (fun i => "e" ++ toString i)
      (by decide) (by decide) (fun i _ => rfl)).1).trans (by decide)

/-! ### Cache insertion -/

theorem find_map_replace (c : Cache) (k : String) (e : CacheEntry)
    (hany : c.any (fun kv => kv.1 == k) = true) :
    (c.map (fun kv => if kv.1 == k then (k, e) else kv)).find? (fun kv => kv.1 == k) =
      some (k, e) := by
  induction c with
  | nil => simp at hany
  | cons kv c ih =>
    by_cases hk : kv.1 = k
    · have hif : (if (kv.1 == k) = true then (k, e) else kv) = (k, e) := by simp [hk]
      rw [List.map_cons, hif, List.find?_cons_of_pos]
      simp
    · have hany' : c.any (fun kv => kv.1 == k) = true := by
        simp [List.any_cons, hk] at hany
        simpa using hany
      have hif : (if (kv.1 == k) = true then (k, e) else kv) = kv := by simp [hk]
      rw [List.map_cons, hif, List.find?_cons_of_neg]
      · exact ih hany'
      · simp [hk]

/-- A dict assignment makes the assigned value the one found under its key:
`put` overwrites any prior entry for the same id. -/
theorem dictFind_dictSet (c : Cache) (k : String) (e : CacheEntry) :
    dictFind (dictSet c k e) k = some e := by
  unfold dictFind dictSet
  by_cases hany : c.any (fun kv => kv.1 == k) = true
  · rw [if_pos hany, find_map_replace c k e hany]
    rfl
  · rw [if_neg hany, List.find?_append]
    have hnone : c.find? (fun kv => kv.1 == k) = none := by
      rw [List.find?_eq_none]
      intro kv hkv hbeq
      apply hany
      exact List.any_of_mem hkv hbeq
    rw [hnone]
    simp

/-- C1: for every successful resolution on a cache miss (success at any
attempt `j`), the returned payload is the normalized one and the cache entry
written for the id carries the start-clock timestamp and a ttl fixed at
insertion from the normalized format count — the long duration exactly when at
least 12 formats remain, else the default — and a dict assignment overwrites
any prior entry for the same id. -/
theorem put_ttl_spec (vid : String) (n : Nat) (t : ℤ)
    (fetched : List String) (test : String → Bool)
    (oracle : Nat → Except String RawInfo) (ks : Nat → Nat)
    (st : SysState) (raw : RawInfo) (errs : Nat → String) (j : Nat)
    (hj : j < n)
    (hpre : ∀ i, i < j → oracle i = .error (errs i))
    (hok : oracle j = .ok raw)
    (hmiss : (cache_read (cleanup_cache st.cache t) vid t).2 = none) :
    (fetch_and_cache_info vid n t fetched test oracle ks st).2 =
      .ok ⟨raw.title, vid, normalize_formats raw.formats⟩ ∧
    dictFind (fetch_and_cache_info vid n t fetched test oracle ks st).1.cache vid =
      some ⟨t, ⟨raw.title, vid, normalize_formats raw.formats⟩,
        if (normalize_formats raw.formats).length ≥ 12 then LONG_CACHE_DURATION
        else DEFAULT_CACHE_DURATION⟩ ∧
    (∀ (c : Cache) (key : String) (e : CacheEntry), dictFind (dictSet c key e) key = some e) := by
  obtain ⟨poolF, heq⟩ := attempt_loop_success vid t n oracle ks raw errs j hj hpre hok n
    ⟨cleanup_cache st.cache t, update_proxy_list st.pool t fetched test⟩ le_rfl (by omega)
  rw [fetch_miss vid n t fetched test oracle ks st hmiss, heq]
  exact ⟨rfl, dictFind_dictSet _ vid _, dictFind_dictSet⟩

theorem put_ttl_spec_witness :
    dictFind (fetch_and_cache_info "v" 5 1000 [] (fun _ => true)
        (fun _ => .ok ⟨some "T", [⟨some "22", some "mp4", none, none, some "mp4a",
          some "avc1", some "http://u", some "https", some 1000, some 128⟩]⟩)
        (fun _ => 0) ⟨[], ⟨[], [], [], 0⟩⟩).1.cache "v" =
      some ⟨1000, ⟨some "T", "v", [⟨some "22", some "mp4", none, none, some "mp4a",
          some "avc1", some "http://u", some "https", some 1000, some 128⟩]⟩,
        DEFAULT_CACHE_DURATION⟩ :=
  ((put_ttl_spec "v" 5 1000 [] (fun _ => true)
      (fun _ => .ok ⟨some "T", [⟨some "22", some "mp4", none, none, some "mp4a",
        some "avc1", some "http://u", some "https", some 1000, some 128⟩]⟩)
      (fun _ => 0) ⟨[], ⟨[], [], [], 0⟩⟩
      ⟨some "T", [⟨some "22", some "mp4", none, none, some "mp4a",
        some "avc1", some "http://u", some "https", some 1000, some 128⟩]⟩
      (fun _ => "") 0 (by decide) (fun i h => absurd h (by omega)) rfl
      (by decide)).2.1).trans (by decide)

/-- For a ttl `d`, the remaining lifetime at the ghost insertion moment is at
most `d` minus the number of failed attempts (one second of sleep each), and
strictly below `d` as soon as one attempt failed. -/
theorem remaining_lifetime_bound (t d : ℤ) (dt : Nat → ℤ) (j : Nat)
    (hdt : ∀ i, 0 ≤ dt i) :
    (t + d) - wall_at_insertion t dt j ≤ d - (j : ℤ) ∧
    (1 ≤ j → (t + d) - wall_at_insertion t dt j < d) := by
  have hSge : (j : ℤ) ≤ Finset.sum (Finset.range j) (fun i => dt i + 1) := by
    calc (j : ℤ) = Finset.sum (Finset.range j) (fun _ => (1 : ℤ)) := by simp
      _ ≤ _ := Finset.sum_le_sum (fun i _ => by have := hdt i; omega)
  have hdtj := hdt j
  unfold wall_at_insertion
  constructor
  · omega
  · intro hj1
    have h1 : (1 : ℤ) ≤ (j : ℤ) := by exact_mod_cast hj1
    omega

/-- C10: the timestamp stored by a successful resolution is the clock value
captured when the call began — before the sweep, the cache check, the pool
refresh, the failed attempts and the backoff sleeps — so at the actual moment
of insertion (start clock plus attempt durations plus one second of sleep per
failed attempt) the entry's remaining lifetime is already short of its ttl by
the time those consumed. -/
theorem insertedAt_is_start_clock (vid : String) (n : Nat) (t : ℤ)
    (fetched : List String) (test : String → Bool)
    (oracle : Nat → Except String RawInfo) (ks : Nat → Nat)
    (st : SysState) (raw : RawInfo) (errs : Nat → String) (j : Nat) (dt : Nat → ℤ)
    (hj : j < n)
    (hpre : ∀ i, i < j → oracle i = .error (errs i))
    (hok : oracle j = .ok raw)
    (hmiss : (cache_read (cleanup_cache st.cache t) vid t).2 = none)
    (hdt : ∀ i, 0 ≤ dt i) :
    ∃ e : CacheEntry,
      dictFind (fetch_and_cache_info vid n t fetched test oracle ks st).1.cache vid = some e ∧
      e.timestamp = t ∧
      (e.timestamp + e.duration) - wall_at_insertion t dt j ≤ e.duration - (j : ℤ) ∧
      (1 ≤ j → (e.timestamp + e.duration) - wall_at_insertion t dt j < e.duration) := by
  obtain ⟨poolF, heq⟩ := attempt_loop_success vid t n oracle ks raw errs j hj hpre hok n
    ⟨cleanup_cache st.cache t, update_proxy_list st.pool t fetched test⟩ le_rfl (by omega)
  rw [fetch_miss vid n t fetched test oracle ks st hmiss, heq]
  exact ⟨_, dictFind_dictSet _ vid _, rfl,
    (remaining_lifetime_bound t _ dt j hdt).1,
    (remaining_lifetime_bound t _ dt j hdt).2⟩

theorem insertedAt_is_start_clock_witness :
    ∃ e : CacheEntry,
      dictFind (fetch_and_cache_info "v" 5 1000 [] (fun _ => true)
          (fun i => if i = 0 then .error "boom" else .ok ⟨some "T", []⟩)
          (fun _ => 0) ⟨[], ⟨[], [], [], 0⟩⟩).1.cache "v" = some e ∧
      e.timestamp = 1000 ∧
      (e.timestamp + e.duration) - wall_at_insertion 1000 (fun _ => 2) 1 ≤
        e.duration - ((1 : Nat) : ℤ) ∧
      (1 ≤ 1 → (e.timestamp + e.duration) - wall_at_insertion 1000 (fun _ => 2) 1 <
        e.duration) :=
  insertedAt_is_start_clock "v" 5 1000 [] (fun _ => true)
    (fun i => if i = 0 then .error "boom" else .ok ⟨some "T", []⟩) (fun _ => 0)
    ⟨[], ⟨[], [], [], 0⟩⟩ ⟨some "T", []⟩ (fun _ => "boom") 1 (fun _ => 2)
    (by omega)
    (fun i hi => by
      have hi0 : i = 0 := by omega
      subst hi0
      rfl)
    rfl (by decide) (fun _ => by show (0 : ℤ) ≤ 2; decide)

/-! ### Timeout handling -/

/-- C3 counterexample: in a concrete run whose first attempt fails with the
extractor's own timeout error text (`The read operation timed out`, the
`socket_timeout` expiry) and whose second attempt succeeds, `resolve` does not
fail with any timeout error — it retries and returns the payload, so a single
attempt exceeding its ceiling does not make `resolve(id)` fail. -/
theorem no_timeout_failure_counterexample :
    (fetch_and_cache_info "vid" 5 1000 [] (fun _ => true)
        (fun i => if i = 0 then .error "The read operation timed out"
          else .ok ⟨some "T", [⟨some "22", some "mp4", none, none, some "mp4a",
            some "avc1", some "http://u", some "https", some 1000, some 128⟩]⟩)
        (fun _ => 0) ⟨[], ⟨[], [], [], 0⟩⟩).2 =
      .ok ⟨some "T", "vid", [⟨some "22", some "mp4", none, none, some "mp4a",
        some "avc1", some "http://u", some "https", some 1000, some 128⟩]⟩ := by
  decide

/-- C3 amended: the orchestrator has no per-attempt wall-clock ceiling and no
distinct timeout failure; the only timeout the code configures is the
extractor-internal `socket_timeout` of 10 (with 3 extractor-internal retries).
An attempt that fails with timeout error text is treated as a generic failure:
it is retried while attempts remain (a later success still resolves normally),
and when every attempt times out the call fails with the generic 500
`Failed after … attempts` error carrying the last timeout text. -/
theorem timeout_treated_as_generic_failure (vid : String) (n : Nat) (t : ℤ)
    (fetched : List String) (test : String → Bool)
    (oracle : Nat → Except String RawInfo) (ks : Nat → Nat)
    (st : SysState) (errs : Nat → String)
    (hmiss : (cache_read (cleanup_cache st.cache t) vid t).2 = none)
    (htimeout : ∀ i, i < n → strHas (errs i) "timed out" = true) :
    ((∀ i, i < n → oracle i = .error (errs i)) → 1 ≤ n →
      (fetch_and_cache_info vid n t fetched test oracle ks st).2 =
        .httpError ⟨500, "Failed after " ++ toString n ++ " attempts: " ++ errs (n - 1)⟩) ∧
    (∀ (raw : RawInfo) (j : Nat), j < n →
      (∀ i, i < j → oracle i = .error (errs i)) → oracle j = .ok raw →
      (fetch_and_cache_info vid n t fetched test oracle ks st).2 =
        .ok ⟨raw.title, vid, normalize_formats raw.formats⟩) ∧
    (∀ (pst : ProxyState) (k : Nat) (b : Bool),
      (get_ydl_opts pst k b).socket_timeout = 10 ∧ (get_ydl_opts pst k b).retries = 3) := by
  refine ⟨?_, ?_, fun pst k b => ⟨rfl, rfl⟩⟩
  · intro hf hn
    rw [fetch_miss vid n t fetched test oracle ks st hmiss]
    exact attempt_loop_all_fail vid t n oracle ks errs hf n _ hn le_rfl
  · intro raw j hj hpre hok
    obtain ⟨poolF, heq⟩ := attempt_loop_success vid t n oracle ks raw errs j hj hpre hok n
      ⟨cleanup_cache st.cache t, update_proxy_list st.pool t fetched test⟩ le_rfl (by omega)
    rw [fetch_miss vid n t fetched test oracle ks st hmiss, heq]

theorem timeout_treated_as_generic_failure_witness :
    (fetch_and_cache_info "v" 1 0 [] (fun _ => true)
        (fun _ => .error "The read operation timed out") (fun _ => 0)
        ⟨[], ⟨[], [], [], 0⟩⟩).2 =
      .httpError ⟨500, "Failed after 1 attempts: The read operation timed out"⟩ :=
  (((timeout_treated_as_generic_failure "v" 1 0 [] (fun _ => true)
      (fun _ => .error "The read operation timed out") (fun _ => 0)
      ⟨[], ⟨[], [], [], 0⟩⟩ (fun _ => "The read operation timed out")
      (by decide) (fun i _ => by
        show strHas "The read operation timed out" "timed out" = true
        decide)).1)
    (fun i _ => rfl) (by omega)).trans (by decide)

/-! ### Stable descending sort and the best-format selectors -/

theorem find_eq_filterHead {α : Type} (p : α → Bool) :
    ∀ l : List α, l.find? p = (l.filter p).head? := by
  intro l
  induction l with
  | nil => rfl
  | cons a t ih =>
    by_cases hpa : p a = true
    · rw [List.find?_cons_of_pos _ hpa, List.filter_cons_of_pos hpa]
      rfl
    · rw [List.find?_cons_of_neg _ hpa, List.filter_cons_of_neg hpa]
      exact ih

theorem head_filter_of_imp {α : Type} (p q : α → Bool)
    (himp : ∀ x, q x = true → p x = true) :
    ∀ (s : List α) (h : α), (s.filter p).head? = some h → q h = true →
      (s.filter q).head? = some h := by
  intro s
  induction s with
  | nil => intro h hh _; simp at hh
  | cons a t ih =>
    intro h hh hq
    by_cases hpa : p a = true
    · rw [List.filter_cons_of_pos hpa] at hh
      have ha : a = h := by simpa using hh
      subst ha
      rw [List.filter_cons_of_pos hq]
      rfl
    · have hqa : ¬ q a = true := fun hqa => hpa (himp a hqa)
      rw [List.filter_cons_of_neg hpa] at hh
      rw [List.filter_cons_of_neg hqa]
      exact ih h hh hq

theorem find_all_max {α : Type} (key : α → ℤ) (w : List α) (h : α)
    (hw : ∀ x ∈ w, key x ≤ key h) (hmem : h ∈ w) :
    ∀ v : List α, (∀ x ∈ v, x ∈ w) →
      (v.filter (fun x => decide (key x = key h))).head? = some h →
      v.find? (fun f => w.all (fun g => decide (key g ≤ key f))) = some h := by
  intro v
  induction v with
  | nil => intro _ hh; simp at hh
  | cons a t ih =>
    intro hsub hh
    by_cases hka : key a = key h
    · rw [List.filter_cons_of_pos (by simpa using hka)] at hh
      have ha : a = h := by simpa using hh
      subst ha
      have hcond : (w.all (fun g => decide (key g ≤ key a))) = true := by
        rw [List.all_eq_true]
        intro g hg
        simpa using hw g hg
      simp only [List.find?]
      simp [hcond]
    · have halt : key a < key h :=
        lt_of_le_of_ne (hw a (hsub a (List.Mem.head t))) hka
      have hcondf : (w.all (fun g => decide (key g ≤ key a))) = false := by
        apply Bool.eq_false_iff.mpr
        intro hall
        rw [List.all_eq_true] at hall
        have := hall h hmem
        simp only [decide_eq_true_eq] at this
        omega
      simp only [List.find?]
      simp only [hcondf]
      exact ih (fun x hx => hsub x (List.Mem.tail a hx))
        (by rwa [List.filter_cons_of_neg (by simpa using hka)] at hh)

theorem exists_key_max {α : Type} (key : α → ℤ) :
    ∀ l : List α, l ≠ [] → ∃ a ∈ l, ∀ b ∈ l, key b ≤ key a := by
  intro l
  induction l with
  | nil => intro h; exact absurd rfl h
  | cons x t ih =>
    intro _
    rcases eq_or_ne t [] with rfl | hne
    · refine ⟨x, List.Mem.head _, ?_⟩
      intro b hb
      rcases List.mem_cons.mp hb with rfl | hb
      · exact le_rfl
      · simp at hb
    · obtain ⟨a, ha, hmax⟩ := ih hne
      by_cases hxa : key x ≤ key a
      · refine ⟨a, List.Mem.tail x ha, ?_⟩
        intro b hb
        rcases List.mem_cons.mp hb with rfl | hb
        · exact hxa
        · exact hmax b hb
      · refine ⟨x, List.Mem.head t, ?_⟩
        intro b hb
        rcases List.mem_cons.mp hb with rfl | hb
        · exact le_rfl
        · exact le_trans (hmax b hb) (le_of_not_le hxa)

theorem firstMaxBy_eq_none_iff {α : Type} (key : α → ℤ) (p : α → Bool) (l : List α) :
    firstMaxBy key p l = none ↔ l.filter p = [] := by
  unfold firstMaxBy
  constructor
  · intro h
    by_contra hne
    obtain ⟨a, ha, hmax⟩ := exists_key_max key (l.filter p) hne
    have hcond : ((l.filter p).all (fun g => decide (key g ≤ key a))) = true := by
      rw [List.all_eq_true]
      intro g hg
      simpa using hmax g hg
    exact (List.find?_eq_none.mp h a ha) hcond
  · intro h
    rw [h]
    rfl

/-- The first eligible entry of the stable descending sort is the
maximum-key eligible entry of the original list, earliest on ties. -/
theorem find_sorted_desc_eq_firstMax {α : Type} (key : α → ℤ) (p : α → Bool) (l : List α) :
    (sorted_desc key l).find? p = firstMaxBy key p l := by
  have htrans : ∀ a b c : α, (decide (key b ≤ key a)) = true →
      (decide (key c ≤ key b)) = true → (decide (key c ≤ key a)) = true := by
    intro a b c hab hbc
    simp only [decide_eq_true_eq] at *
    exact le_trans hbc hab
  have htotal : ∀ a b : α, (decide (key b ≤ key a) || decide (key a ≤ key b)) = true := by
    intro a b
    simp only [Bool.or_eq_true, decide_eq_true_eq]
    exact le_total (key b) (key a)
  have hperm : (sorted_desc key l).Perm l := List.mergeSort_perm l _
  have hsort : (sorted_desc key l).Pairwise (fun a b => decide (key b ≤ key a) = true) :=
    List.sorted_mergeSort htrans htotal l
  rcases hfe : l.filter p with _ | ⟨h0, tl⟩
  · have hp := hperm.filter p
    rw [hfe] at hp
    have hsf : (sorted_desc key l).filter p = [] := hp.eq_nil
    rw [find_eq_filterHead, hsf]
    unfold firstMaxBy
    rw [hfe]
    rfl
  · have hne : l.filter p ≠ [] := by
      rw [hfe]
      exact List.cons_ne_nil h0 tl
    have hup : ((sorted_desc key l).filter p).Perm (l.filter p) := hperm.filter p
    have hune : (sorted_desc key l).filter p ≠ [] := by
      intro h
      rw [h] at hup
      exact hne hup.symm.eq_nil
    obtain ⟨h1, u1, hu⟩ := List.exists_cons_of_ne_nil hune
    have hh1mem : h1 ∈ (sorted_desc key l).filter p := by
      rw [hu]
      exact List.Mem.head _
    have hph1 : p h1 = true := (List.mem_filter.mp hh1mem).2
    have hh1l : h1 ∈ l.filter p := hup.subset hh1mem
    have hsortu : ((sorted_desc key l).filter p).Pairwise
        (fun a b => decide (key b ≤ key a) = true) := List.Pairwise.filter p hsort
    have hmax : ∀ x ∈ l.filter p, key x ≤ key h1 := by
      intro x hx
      have hxs : x ∈ (sorted_desc key l).filter p := hup.symm.subset hx
      rw [hu] at hxs
      rcases List.mem_cons.mp hxs with rfl | hxs
      · exact le_rfl
      · rw [hu] at hsortu
        have := (List.pairwise_cons.mp hsortu).1 x hxs
        simpa using this
    have himpq : ∀ x, (p x && decide (key x = key h1)) = true → p x = true :=
      fun x hx => (Bool.and_eq_true_iff.mp hx).1
    have hcpair : (l.filter (fun x => p x && decide (key x = key h1))).Pairwise
        (fun a b => decide (key b ≤ key a) = true) := by
      apply List.pairwise_of_forall_mem_list
      intro a ha b hb
      have hka : key a = key h1 := by
        have := (Bool.and_eq_true_iff.mp (List.mem_filter.mp ha).2).2
        simpa using this
      have hkb : key b = key h1 := by
        have := (Bool.and_eq_true_iff.mp (List.mem_filter.mp hb).2).2
        simpa using this
      simp [hka, hkb]
    have hcs : List.Sublist (l.filter (fun x => p x && decide (key x = key h1))) (sorted_desc key l) :=
      List.sublist_mergeSort htrans htotal hcpair (List.filter_sublist l)
    have hcq : (l.filter (fun x => p x && decide (key x = key h1))).filter
        (fun x => p x && decide (key x = key h1)) =
        l.filter (fun x => p x && decide (key x = key h1)) :=
      List.filter_eq_self.mpr (fun a ha => (List.mem_filter.mp ha).2)
    have hcs' : List.Sublist (l.filter (fun x => p x && decide (key x = key h1)))
        ((sorted_desc key l).filter (fun x => p x && decide (key x = key h1))) := by
      have := hcs.filter (fun x => p x && decide (key x = key h1))
      rwa [hcq] at this
    have hpermq : ((sorted_desc key l).filter (fun x => p x && decide (key x = key h1))).Perm
        (l.filter (fun x => p x && decide (key x = key h1))) := hperm.filter _
    have hceq : (l.filter (fun x => p x && decide (key x = key h1))) =
        (sorted_desc key l).filter (fun x => p x && decide (key x = key h1)) :=
      hcs'.eq_of_length hpermq.length_eq.symm
    have hqh1 : (p h1 && decide (key h1 = key h1)) = true := by simp [hph1]
    have hsq_head : (((sorted_desc key l).filter
        (fun x => p x && decide (key x = key h1))).head?) = some h1 := by
      apply head_filter_of_imp p _ himpq (sorted_desc key l) h1 _ hqh1
      rw [hu]
      rfl
    have hlq_head : ((l.filter (fun x => p x && decide (key x = key h1))).head?) = some h1 := by
      rw [hceq]
      exact hsq_head
    have hff : l.filter (fun x => p x && decide (key x = key h1)) =
        (l.filter p).filter (fun x => decide (key x = key h1)) := by
      rw [List.filter_filter]
      apply List.filter_congr
      intro x _
      exact Bool.and_comm _ _
    have hRHS : firstMaxBy key p l = some h1 := by
      unfold firstMaxBy
      apply find_all_max key (l.filter p) h1 hmax hh1l (l.filter p) (fun x hx => hx)
      rw [← hff]
      exact hlq_head
    rw [find_eq_filterHead, hu, hRHS]
    rfl

/-- C8: `bestVideo` considers exactly the video-only formats (non-`none`
video codec, `none`/absent audio codec — muxed formats are excluded) and
returns the one with the highest `vbr` (missing treated as 0), ties broken by
original list order; `bestAudio` is symmetric over audio-only formats by
`abr`; both return `None` exactly when no eligible format exists. -/
theorem best_selectors_spec (fs : List Format) :
    best_video fs = bestVideoSpec fs ∧
    best_audio fs = bestAudioSpec fs ∧
    (best_video fs = none ↔ fs.filter is_video_only = []) ∧
    (best_audio fs = none ↔ fs.filter is_audio_only = []) := by
  have h1 : best_video fs = bestVideoSpec fs :=
    find_sorted_desc_eq_firstMax vbrKey is_video_only fs
  have h2 : best_audio fs = bestAudioSpec fs :=
    find_sorted_desc_eq_firstMax abrKey is_audio_only fs
  refine ⟨h1, h2, ?_, ?_⟩
  · rw [h1]
    exact firstMaxBy_eq_none_iff vbrKey is_video_only fs
  · rw [h2]
    exact firstMaxBy_eq_none_iff abrKey is_audio_only fs

theorem best_selectors_spec_witness :
    best_video
        [⟨some "2", some "mp4", none, none, some "mp4a", some "avc", some "u2",
          some "https", some 5000, some 128⟩,
         ⟨some "1", some "mp4", none, none, some "none", some "avc", some "u1",
          some "https", some 2000, none⟩] =
      some ⟨some "1", some "mp4", none, none, some "none", some "avc", some "u1",
        some "https", some 2000, none⟩ :=
  ((best_selectors_spec
      [⟨some "2", some "mp4", none, none, some "mp4a", some "avc", some "u2",
        some "https", some 5000, some 128⟩,
       ⟨some "1", some "mp4", none, none, some "none", some "avc", some "u1",
        some "https", some 2000, none⟩]).1).trans (by decide)

/-! ### Manifest-format view -/

/-- C9: over a format list whose entries all carry a truthy URL (which the
normalization pass guarantees, third conjunct), the `/m3u8` view keeps exactly
the formats matching the spec's manifest predicate — URL containing the
marker, or manifest container extension, or a recognized adaptive-streaming
protocol — and fails with the 404 `NotFound` error precisely when that
filtered set is empty. -/
theorem manifest_formats_spec (info : ResolvedInfo)
    (hurl : ∀ f ∈ info.formats, truthy f.url = true) :
    (get_m3u8_streams info = .error ⟨404, "No m3u8 streams found"⟩ ↔
      info.formats.filter is_manifest_stream_spec = []) ∧
    (∀ r, get_m3u8_streams info = .ok r →
      r.m3u8_formats = info.formats.filter is_manifest_stream_spec ∧
      r.title = info.title ∧ r.id = info.id) ∧
    (∀ rfs : List RawFormat, ∀ f ∈ normalize_formats rfs, truthy f.url = true) := by
  have hfeq : info.formats.filter is_m3u8_stream =
      info.formats.filter is_manifest_stream_spec := by
    apply List.filter_congr
    intro f hf
    show is_m3u8_stream f = is_manifest_stream_spec f
    unfold is_m3u8_stream is_manifest_stream_spec
    rw [hurl f hf, Bool.true_and]
  have hred : get_m3u8_streams info =
      (if (info.formats.filter is_m3u8_stream).isEmpty
        then Except.error ⟨404, "No m3u8 streams found"⟩
        else Except.ok ⟨info.title, info.id, info.formats.filter is_m3u8_stream⟩) := rfl
  refine ⟨?_, ?_, ?_⟩
  · rw [hred, hfeq]
    by_cases hempty : info.formats.filter is_manifest_stream_spec = []
    · rw [hempty]
      simp
    · rw [if_neg (by simpa using hempty)]
      simp [hempty]
  · intro r hr
    rw [hred, hfeq] at hr
    by_cases hempty : info.formats.filter is_manifest_stream_spec = []
    · rw [hempty] at hr
      simp at hr
    · rw [if_neg (by simpa using hempty)] at hr
      injection hr with hr
      subst hr
      exact ⟨rfl, rfl, rfl⟩
  · intro rfs f hf
    unfold normalize_formats at hf
    obtain ⟨f', hf', hft⟩ := List.mem_map.mp hf
    subst hft
    exact (Bool.and_eq_true_iff.mp (List.mem_filter.mp hf').2).1

theorem manifest_formats_spec_witness :
    get_m3u8_streams ⟨some "T", "v",
        [⟨some "22", some "mp4", none, none, some "mp4a", some "avc1",
          some "http://u", some "https", some 1000, some 128⟩]⟩ =
      .error ⟨404, "No m3u8 streams found"⟩ :=
  ((manifest_formats_spec ⟨some "T", "v",
      [⟨some "22", some "mp4", none, none, some "mp4a", some "avc1",
        some "http://u", some "https", some 1000, some 128⟩]⟩
      (by decide)).1).mpr (by decide)

end YuDlp
